import Mathlib

set_option maxHeartbeats 1000000

/-!
Verification of the hierarchical ignore-pattern engine of `stm`
(`src/main.py`).

Absolute paths are modelled as lists of path segments: the POSIX path
`/a/b` is `["a", "b"]` and `[]` is the filesystem root, so
`os.path.dirname` is `List.dropLast` and `os.path.basename` is the last
segment.  Pattern matching works on the `/`-joined relative path at the
character level (`String.data`), exactly as the source builds
`path_relative_to_gitignore_dir` with `os.path.relpath(...).replace(os.sep, '/')`.

`fnmatch` models Python's `fnmatch.fnmatch` on a case-sensitive
filesystem: `*` matches any character sequence (separators included),
`?` matches one character, `[...]` is a character class with leading `!`
negation and `-` ranges, and an unmatched `[` is a literal character.
The matcher carries a fuel argument chosen strictly larger than the sum
of the pattern and subject lengths; every recursive call decreases that
sum, so the fuel is never exhausted.
-/

/-- Membership test for one character against the body of a `[...]`
character class (the closing bracket excluded): `a-b` denotes a code
point range, any other character is a literal member. -/
def charInClass (c : Char) : List Char → Bool
  | a :: '-' :: b :: rest => (decide (a ≤ c) && decide (c ≤ b)) || charInClass c rest
  | a :: rest => (a == c) || charInClass c rest
  | [] => false

/-- Split a character list at the first `]`, returning the part before it
and the part after it; `none` when no `]` occurs. -/
def splitAtClose : List Char → Option (List Char × List Char)
  | [] => none
  | ']' :: rest => some ([], rest)
  | c :: rest =>
    match splitAtClose rest with
    | some p => some (c :: p.1, p.2)
    | none => none

/-- Parse the text following a `[`: mirrors the bracket scan of
`fnmatch.translate` — an optional leading `!` negates the class, a `]`
directly after it is an ordinary member, and the class ends at the next
`]`.  Returns `(negated, members, remaining pattern)`, or `none` when the
bracket is unmatched (in which case `[` is matched literally). -/
def classSpec : List Char → Option (Bool × List Char × List Char)
  | '!' :: ']' :: rest =>
    match splitAtClose rest with
    | some p => some (true, ']' :: p.1, p.2)
    | none => none
  | '!' :: rest =>
    match splitAtClose rest with
    | some p => some (true, p.1, p.2)
    | none => none
  | ']' :: rest =>
    match splitAtClose rest with
    | some p => some (false, ']' :: p.1, p.2)
    | none => none
  | l =>
    match splitAtClose l with
    | some p => some (false, p.1, p.2)
    | none => none

/-- Fueled glob matcher: `globMatchF fuel pat s` decides whether the glob
`pat` matches the whole character sequence `s` (Python
`fnmatch.fnmatch(s, pat)` semantics).  Each recursive call decreases
`pat.length + s.length`, so any `fuel` above that sum is enough. -/
def globMatchF : Nat → List Char → List Char → Bool
  | 0, _, _ => false
  | fuel + 1, p, s =>
    match p, s with
    | [], s => s.isEmpty
    | '*' :: ps, s =>
      globMatchF fuel ps s ||
        (match s with
         | [] => false
         | _ :: cs => globMatchF fuel ('*' :: ps) cs)
    | '?' :: ps, s =>
      (match s with
       | [] => false
       | _ :: cs => globMatchF fuel ps cs)
    | '[' :: ps, s =>
      (match classSpec ps with
       | some spec =>
         (match s with
          | [] => false
          | c :: cs => (charInClass c spec.2.1 != spec.1) && globMatchF fuel spec.2.2 cs)
       | none =>
         (match s with
          | [] => false
          | c :: cs => (c == '[') && globMatchF fuel ps cs))
    | pc :: ps, s =>
      (match s with
       | [] => false
       | c :: cs => (pc == c) && globMatchF fuel ps cs)

/-- `fnmatch.fnmatch(s, pat)` (case-sensitive filesystem). -/
def fnmatch (s pat : List Char) : Bool :=
  globMatchF (pat.length + s.length + 1) pat s

/-- Last `/`-separated component of a character sequence:
`os.path.basename` applied to a `/`-joined relative path. -/
def lastSlashSeg (l : List Char) : List Char :=
  (l.reverse.takeWhile (fun c => !(c == '/'))).reverse

/-- Join character-level path segments with `/`. -/
def joinSlash : List (List Char) → List Char
  | [] => []
  | [x] => x
  | x :: xs => x ++ '/' :: joinSlash xs

/-- An absolute path as its list of segments (`/a/b` is `["a","b"]`). -/
abbrev AbsPath := List String

/-- The directory → pattern-list index (`gitignore_patterns_by_dir`),
as an association list with distinct keys. -/
abbrev Idx := List (AbsPath × List String)

/-- Boolean element-wise prefix test; instantiated at `AbsPath` it says a
directory is another path itself or one of its ancestors, and at
`List Char` it is Python's `str.startswith`. -/
def beqPrefix [BEq α] : List α → List α → Bool
  | [], _ => true
  | _ :: _, [] => false
  | a :: as, b :: bs => a == b && beqPrefix as bs

/-- `ALWAYS_IGNORE_FILENAMES` from `src/main.py` (lines 31-34). -/
def ALWAYS_IGNORE_FILENAMES : List String :=
  ["package-lock.json", "yarn.lock", "Pipfile.lock", "poetry.lock", ".DS_Store"]

/-- `os.path.basename` of a segment path. -/
def basenameSeg (p : AbsPath) : String :=
  (p.getLast?).getD ""

/-- Lines 87-96 of `src/main.py`: the candidate is inside a `.git`
directory — the first `.git` segment heads an existing directory
(`os.path.isdir`, supplied abstractly) and is not the final segment
(`filepath_abs.startswith(git_dir_path + os.sep)`). -/
def gitComponentIgnored (isDir : AbsPath → Bool) (p : AbsPath) : Bool :=
  match p.findIdx? (fun s => s == ".git") with
  | none => false
  | some i => isDir (p.take (i + 1)) && decide (i + 1 < p.length)

/-- Length of the common segment prefix of two paths
(`os.path.commonprefix` over components, as used by `os.path.relpath`). -/
def commonLen : AbsPath → AbsPath → Nat
  | a :: as, b :: bs => if a == b then commonLen as bs + 1 else 0
  | _, _ => 0

/-- Segments of `os.path.relpath(p, d)`. -/
def relSegs (p d : AbsPath) : AbsPath :=
  List.replicate (d.length - commonLen p d) ".." ++ p.drop (commonLen p d)

/-- `os.path.relpath(p, d).replace(os.sep, '/')` as a character list
(line 141 of `src/main.py`); `os.path.relpath` yields `"."` for equal
paths. -/
def relChars (p d : AbsPath) : List Char :=
  if (relSegs p d).isEmpty then ['.'] else joinSlash ((relSegs p d).map String.data)

/-- Dictionary read `gitignore_patterns_by_dir[dir]` (guarded by the
membership test in the source, so the default is never observed). -/
def lookupIdx (idx : Idx) (d : AbsPath) : List String :=
  match idx.find? (fun e => e.1 == d) with
  | some e => e.2
  | none => []

/-- Dictionary membership test `dir in gitignore_patterns_by_dir`. -/
def containsIdx (idx : Idx) (d : AbsPath) : Bool :=
  (idx.find? (fun e => e.1 == d)).isSome

/-- `pattern.startswith('!')` (line 144). -/
def isNeg (pattern : String) : Bool :=
  pattern.data.head? == some '!'

/-- `pattern[1:]` applied when the rule is a negation (line 146). -/
def strippedPat (pattern : String) : List Char :=
  if isNeg pattern then pattern.data.drop 1 else pattern.data

/-- Lines 156-180 of `src/main.py`: whether one (already `!`-stripped)
pattern matches the relative path.  A trailing `/` makes it a directory
rule matched by string prefix; a pattern without `/` is unanchored and
matches the basename, the path under the pattern as a directory, or the
path itself; otherwise the whole relative path is glob-matched. -/
def ruleMatches (rel : List Char) (pat : List Char) : Bool :=
  if pat.getLast? == some '/' then
    beqPrefix pat (rel ++ ['/'])
  else if pat.contains '/' then
    fnmatch rel pat
  else
    fnmatch (lastSlashSeg rel) pat ||
    fnmatch rel (pat ++ ['/', '*']) ||
    fnmatch rel pat

/-- The full per-rule match of the loop body (negation marker stripped
first, as in lines 144-146). -/
def patternMatched (rel : List Char) (pattern : String) : Bool :=
  ruleMatches rel (strippedPat pattern)

/-- One iteration of the pattern loop (lines 143-191) on the state
`(ignored, negated)`: a matching negation sets `negated` and clears
`ignored`; a matching plain rule sets `ignored` only while `negated` is
still false. -/
def applyRule (rel : List Char) (st : Bool × Bool) (pattern : String) : Bool × Bool :=
  if patternMatched rel pattern then
    if isNeg pattern then (false, true)
    else if st.2 then st else (true, st.2)
  else st

/-- Per-directory step of the resolver (lines 138-191): fold the
directory's pattern list, in file order, over the state. -/
def dirStep (fp : AbsPath) (idx : Idx) (st : Bool × Bool) (d : AbsPath) : Bool × Bool :=
  (lookupIdx idx d).foldl (applyRule (relChars fp d)) st

/-- The `while True` loop of lines 128-135: walk from `temp` up through
its ancestors, keeping the directories present in the index, and stop at
the project root or the filesystem root (for absolute paths the source's
`not temp_dir` and `temp_dir == os.path.dirname(temp_dir)` break
conditions both collapse to the empty segment list).  The fuel bounds the
iteration count; `temp.length + 1` always suffices since every iteration
drops the last segment. -/
def chainDirs : Nat → AbsPath → AbsPath → Idx → List AbsPath
  | 0, _, _, _ => []
  | fuel + 1, temp, root, idx =>
    let here := if containsIdx idx temp then [temp] else []
    if temp == root || temp.isEmpty then here
    else here ++ chainDirs fuel temp.dropLast root idx

/-- `relevant_gitignore_dirs` for a candidate file: its parent directory
and every ancestor up to the project root that carries a rule set,
deepest first. -/
def relevantDirs (fp root : AbsPath) (idx : Idx) : List AbsPath :=
  chainDirs (fp.dropLast.length + 1) fp.dropLast root idx

/-- `is_file_ignored(filepath_abs, project_root_abs,
gitignore_patterns_by_dir)` from `src/main.py` lines 74-195.
`isDir` abstracts the `os.path.isdir` probe of the `.git` check. -/
def is_file_ignored (isDir : AbsPath → Bool) (fp root : AbsPath) (idx : Idx) : Bool :=
  if ALWAYS_IGNORE_FILENAMES.contains (basenameSeg fp) then true
  else if gitComponentIgnored isDir fp then true
  else
    let st := (relevantDirs fp root idx).foldl (dirStep fp idx) (false, false)
    if st.2 then false else st.1

/-- Dictionary membership test, state-passing form: a Python `in` query
returns its verdict and leaves the dictionary as it was. -/
def dictContains_st (idx : Idx) (d : AbsPath) : Bool × Idx :=
  (containsIdx idx d, idx)

/-- Dictionary read, state-passing form. -/
def dictGet_st (idx : Idx) (d : AbsPath) : List String × Idx :=
  (lookupIdx idx d, idx)

/-- State-passing form of the ancestor walk: every dictionary access
threads the dictionary through. -/
def chainDirs_st : Nat → AbsPath → AbsPath → Idx → List AbsPath × Idx
  | 0, _, _, idx => ([], idx)
  | fuel + 1, temp, root, idx =>
    let m := dictContains_st idx temp
    let here := if m.1 then [temp] else []
    if temp == root || temp.isEmpty then (here, m.2)
    else
      let r := chainDirs_st fuel temp.dropLast root m.2
      (here ++ r.1, r.2)

/-- State-passing form of the per-directory step: the pattern list is
fetched from the threaded dictionary. -/
def queryStep_st (fp : AbsPath) (acc : (Bool × Bool) × Idx) (d : AbsPath) : (Bool × Bool) × Idx :=
  ((dictGet_st acc.2 d).1.foldl (applyRule (relChars fp d)) acc.1, (dictGet_st acc.2 d).2)

/-- State-passing form of `is_file_ignored`: the result is the verdict
together with the dictionary as the query leaves it. -/
def is_file_ignored_st (isDir : AbsPath → Bool) (fp root : AbsPath) (idx : Idx) : Bool × Idx :=
  if ALWAYS_IGNORE_FILENAMES.contains (basenameSeg fp) then (true, idx)
  else if gitComponentIgnored isDir fp then (true, idx)
  else
    let c := chainDirs_st (fp.dropLast.length + 1) fp.dropLast root idx
    let r := c.1.foldl (queryStep_st fp) ((false, false), c.2)
    (if r.1.2 then false else r.1.1, r.2)

/-- Abstract filesystem state for the discovery phase: the sets of
existing directories and files, which files are readable, and the raw
text lines of each file.  `dirs` enumerates the directories in the order
`os.walk` visits them. -/
structure FS where
  dirs : List AbsPath
  files : List AbsPath
  readable : AbsPath → Bool
  fileLines : AbsPath → List String

/-- Python `str.strip()` on a line (whitespace trimmed on both ends). -/
def pyStrip (s : String) : String :=
  String.mk (((s.data.dropWhile Char.isWhitespace).reverse.dropWhile Char.isWhitespace).reverse)

/-- Python `str.startswith` on whole strings. -/
def strStartsWith (s pre : String) : Bool :=
  beqPrefix pre.data s.data

/-- `load_gitignore_patterns` (lines 59-71): a missing file yields `[]`;
an existing file is opened — a permission or decoding failure there
propagates as an exception, modelled by `Except.error` — and its
stripped, non-empty, non-comment lines are returned in order. -/
def load_gitignore_patterns (fs : FS) (p : AbsPath) : Except Unit (List String) :=
  if fs.files.contains p then
    if fs.readable p then
      Except.ok (((fs.fileLines p).map pyStrip).filter
        (fun l => !(l == "") && !(strStartsWith l "#")))
    else Except.error ()
  else Except.ok []

/-- `os.walk(d)` restricted to the directory names it yields: every
existing directory at or below `d`, in enumeration order. -/
def osWalkDirs (fs : FS) (d : AbsPath) : List AbsPath :=
  fs.dirs.filter (fun r => beqPrefix d r)

/-- Set-insertion used to model the Python `set` of scan roots. -/
def addUnique (acc : List AbsPath) (p : AbsPath) : List AbsPath :=
  if acc.contains p then acc else acc ++ [p]

/-- Duplicate removal keeping first occurrences (Python `set` contents,
in a fixed deterministic order). -/
def dedupList (l : List AbsPath) : List AbsPath :=
  l.foldl addUnique []

/-- `dirs_to_scan` (lines 216-221): each start path contributes itself
when it is an existing directory, or its parent when it is an existing
file. -/
def dirs_to_scan (fs : FS) (starts : List AbsPath) : List AbsPath :=
  dedupList (starts.filterMap (fun p =>
    if fs.dirs.contains p then some p
    else if fs.files.contains p then some p.dropLast
    else none))

/-- Body of the `os.walk` loop (lines 223-235): when directory `r` holds
a rule file not seen before, load it into the index and record the file.
Note the out-of-root guard of lines 226-230 is a no-op (`pass`) in the
source, so no bound on `r` is applied here. -/
def scanStep (fs : FS) (acc : Idx × List AbsPath) (r : AbsPath) : Except Unit (Idx × List AbsPath) :=
  let gi := r ++ [".gitignore"]
  if fs.files.contains gi && !(acc.2.contains gi) then
    match load_gitignore_patterns fs gi with
    | Except.ok pats => Except.ok (acc.1 ++ [(r, pats)], acc.2 ++ [gi])
    | Except.error e => Except.error e
  else Except.ok acc

/-- Walk one scan root: fold `scanStep` over the directories `os.walk`
yields, propagating any read failure. -/
def scanList (fs : FS) : List AbsPath → Idx × List AbsPath → Except Unit (Idx × List AbsPath)
  | [], acc => Except.ok acc
  | r :: rs, acc =>
    match scanStep fs acc r with
    | Except.ok acc2 => scanList fs rs acc2
    | Except.error e => Except.error e

/-- Outer loop over the scan roots. -/
def scanDirs (fs : FS) : List AbsPath → Idx × List AbsPath → Except Unit (Idx × List AbsPath)
  | [], acc => Except.ok acc
  | d :: ds, acc =>
    match scanList fs (osWalkDirs fs d) acc with
    | Except.ok acc2 => scanDirs fs ds acc2
    | Except.error e => Except.error e

/-- `collect_gitignore_patterns` (lines 198-236): seed the index with
the project root's rule file when present, then scan every start path's
tree; a rule-file read failure propagates out. -/
def collect_gitignore_patterns (fs : FS) (starts : List AbsPath) (root : AbsPath) :
    Except Unit Idx :=
  let rootGi := root ++ [".gitignore"]
  let initE : Except Unit (Idx × List AbsPath) :=
    if fs.files.contains rootGi then
      match load_gitignore_patterns fs rootGi with
      | Except.ok pats => Except.ok ([(root, pats)], [rootGi])
      | Except.error e => Except.error e
    else Except.ok ([], [])
  match initE with
  | Except.error e => Except.error e
  | Except.ok init =>
    match scanDirs fs (dirs_to_scan fs starts) init with
    | Except.ok fin => Except.ok fin.1
    | Except.error e => Except.error e


/-- A filesystem with a start directory `/out` lying outside the project
root `/r`; `/out` holds a one-line rule file. -/
def fsOut : FS :=
  { dirs := [["r"], ["out"]], files := [["out", ".gitignore"]],
    readable := fun _ => true, fileLines := fun _ => ["x"] }

/-- A filesystem whose start directory `/r/s` lies under the project
root `/r`; both directories hold a one-line rule file. -/
def fsW : FS :=
  { dirs := [["r"], ["r", "s"]], files := [["r", ".gitignore"], ["r", "s", ".gitignore"]],
    readable := fun _ => true, fileLines := fun _ => ["x"] }

/-- A filesystem whose root rule file `/r/.gitignore` exists but is not
readable. -/
def fsU : FS :=
  { dirs := [["r"]], files := [["r", ".gitignore"]],
    readable := fun _ => false, fileLines := fun _ => [] }

/-- The empty filesystem. -/
def fsM : FS :=
  { dirs := [], files := [], readable := fun _ => true, fileLines := fun _ => [] }

theorem applyRule_no_match (rel : List Char) (st : Bool × Bool) (pattern : String)
    (h : patternMatched rel pattern = false) : applyRule rel st pattern = st := by
  simp [applyRule, h]

theorem foldl_applyRule_no_match (rel : List Char) :
    ∀ (pats : List String) (st : Bool × Bool),
      (∀ p ∈ pats, patternMatched rel p = false) →
      pats.foldl (applyRule rel) st = st := by
  intro pats
  induction pats with
  | nil => intro st _; rfl
  | cons q qs ih =>
    intro st h
    rw [List.foldl_cons, applyRule_no_match rel st q (h q (List.mem_cons_self q qs))]
    exact ih st (fun p hp => h p (List.mem_cons_of_mem q hp))

theorem foldl_dirStep_no_match (fp : AbsPath) (idx : Idx) :
    ∀ (dirs : List AbsPath) (st : Bool × Bool),
      (∀ d ∈ dirs, ∀ p ∈ lookupIdx idx d, patternMatched (relChars fp d) p = false) →
      dirs.foldl (dirStep fp idx) st = st := by
  intro dirs
  induction dirs with
  | nil => intro st _; rfl
  | cons d ds ih =>
    intro st h
    rw [List.foldl_cons,
      show dirStep fp idx st d = st from
        foldl_applyRule_no_match _ _ _ (h d (List.mem_cons_self d ds))]
    exact ih st (fun d' hd' => h d' (List.mem_cons_of_mem d hd'))

theorem applyRule_snd_mono (rel : List Char) (st : Bool × Bool) (pattern : String)
    (h : st.2 = true) : (applyRule rel st pattern).2 = true := by
  simp only [applyRule, h]
  split
  · split
    · rfl
    · simp [h]
  · exact h

theorem foldl_applyRule_snd_mono (rel : List Char) :
    ∀ (pats : List String) (st : Bool × Bool), st.2 = true →
      (pats.foldl (applyRule rel) st).2 = true := by
  intro pats
  induction pats with
  | nil => intro st h; exact h
  | cons q qs ih =>
    intro st h
    rw [List.foldl_cons]
    exact ih _ (applyRule_snd_mono rel st q h)

theorem applyRule_neg (rel : List Char) (st : Bool × Bool) (pattern : String)
    (hn : isNeg pattern = true) (hm : patternMatched rel pattern = true) :
    (applyRule rel st pattern).2 = true := by
  simp [applyRule, hn, hm]

theorem foldl_applyRule_neg (rel : List Char) :
    ∀ (pats : List String) (st : Bool × Bool) (pattern : String),
      pattern ∈ pats → isNeg pattern = true → patternMatched rel pattern = true →
      (pats.foldl (applyRule rel) st).2 = true := by
  intro pats
  induction pats with
  | nil => intro st pattern h _ _; exact absurd h (List.not_mem_nil pattern)
  | cons q qs ih =>
    intro st pattern hmem hn hm
    rw [List.foldl_cons]
    rcases List.mem_cons.mp hmem with h | h
    · subst h
      exact foldl_applyRule_snd_mono rel qs _ (applyRule_neg rel st pattern hn hm)
    · exact ih _ pattern h hn hm

theorem foldl_dirStep_snd_mono (fp : AbsPath) (idx : Idx) :
    ∀ (dirs : List AbsPath) (st : Bool × Bool), st.2 = true →
      (dirs.foldl (dirStep fp idx) st).2 = true := by
  intro dirs
  induction dirs with
  | nil => intro st h; exact h
  | cons d ds ih =>
    intro st h
    rw [List.foldl_cons]
    exact ih _ (foldl_applyRule_snd_mono _ _ _ h)

theorem foldl_dirStep_neg (fp : AbsPath) (idx : Idx) :
    ∀ (dirs : List AbsPath) (st : Bool × Bool) (d : AbsPath) (pattern : String),
      d ∈ dirs → pattern ∈ lookupIdx idx d → isNeg pattern = true →
      patternMatched (relChars fp d) pattern = true →
      (dirs.foldl (dirStep fp idx) st).2 = true := by
  intro dirs
  induction dirs with
  | nil => intro st d pattern h _ _ _; exact absurd h (List.not_mem_nil d)
  | cons e ds ih =>
    intro st d pattern hmem hp hn hm
    rw [List.foldl_cons]
    rcases List.mem_cons.mp hmem with h | h
    · subst h
      exact foldl_dirStep_snd_mono fp idx ds _ (foldl_applyRule_neg _ _ _ _ hp hn hm)
    · exact ih _ d pattern h hp hn hm

/-- C1: the claim states last-matching-rule-wins resolution.  The code
violates it: with the root rule file `!a.txt` then `a.txt`, the last
matching rule for `root/a.txt` is the plain rule `a.txt`, so the claimed
contract yields `true`; the source's `negated` flag, once set by the
earlier matching negation, is never cleared and forces the final verdict
to `false` (`return ignored if not negated else False`). -/
theorem C1_last_match_violated :
    is_file_ignored (fun _ => false) ["r", "a.txt"] ["r"]
      [(["r"], ["!a.txt", "a.txt"])] = false := by decide

/-- C2: the claim states that the nested plain rule `important.txt` in
`sub` overrides the root negation `!important.txt`, so the query returns
`true`.  The code returns `false`: the root rule file is processed after
`sub`'s (the walk is deepest-first and later directories overwrite), its
negation matches by basename, and the sticky `negated` flag forces the
final verdict to `false`. -/
theorem C2_nested_override_violated :
    is_file_ignored (fun _ => false) ["r", "sub", "important.txt"] ["r"]
      [(["r"], ["!important.txt"]), (["r", "sub"], ["important.txt"])] = false := by decide

/-- C3: with the single root rule file `*.log` then `!keep.log`,
`root/keep.log` resolves to `false` and `root/other.log` to `true`. -/
theorem C3_log_negation :
    is_file_ignored (fun _ => false) ["r", "keep.log"] ["r"]
      [(["r"], ["*.log", "!keep.log"])] = false ∧
    is_file_ignored (fun _ => false) ["r", "other.log"] ["r"]
      [(["r"], ["*.log", "!keep.log"])] = true :=
  ⟨by decide, by decide⟩

/-- C4 counterexample: `root/package-lock.json` with an empty index — no
directory carries rules, so no rule matches — yet the resolver returns
`true` via the fixed filename denylist, refuting "no matching rule
implies `false`" for every candidate path. -/
theorem C4_counterexample :
    relevantDirs ["r", "package-lock.json"] ["r"] [] = [] ∧
    is_file_ignored (fun _ => false) ["r", "package-lock.json"] ["r"] [] = true :=
  ⟨by decide, by decide⟩

/-- C4 amended: for every candidate path that is not caught by the fixed
filename denylist or the `.git` directory check, if no rule of any
applicable rule set matches the path, the resolver returns `false`. -/
theorem C4_no_match_false (isDir : AbsPath → Bool) (fp root : AbsPath) (idx : Idx)
    (h1 : ALWAYS_IGNORE_FILENAMES.contains (basenameSeg fp) = false)
    (h2 : gitComponentIgnored isDir fp = false)
    (h3 : ∀ d ∈ relevantDirs fp root idx, ∀ p ∈ lookupIdx idx d,
      patternMatched (relChars fp d) p = false) :
    is_file_ignored isDir fp root idx = false := by
  have h1' : basenameSeg fp ∉ ALWAYS_IGNORE_FILENAMES := by simpa using h1
  simp [is_file_ignored, h1', h2, foldl_dirStep_no_match fp idx _ _ h3]

/-- C4 witness: `root/notes.txt` under a root rule file containing only
`*.log` matches no rule and resolves to `false`. -/
theorem C4_witness :
    is_file_ignored (fun _ => false) ["r", "notes.txt"] ["r"] [(["r"], ["*.log"])] = false :=
  C4_no_match_false (fun _ => false) ["r", "notes.txt"] ["r"] [(["r"], ["*.log"])]
    (by decide) (by decide) (by decide)

/-- C10: negation is sticky — outside the fixed denylist, if any rule of
the walk that matches the path is a negation rule, the resolver returns
`false`, whatever other rules match anywhere in the walk. -/
theorem C10_sticky_negation (isDir : AbsPath → Bool) (fp root : AbsPath) (idx : Idx)
    (d : AbsPath) (pattern : String)
    (h1 : ALWAYS_IGNORE_FILENAMES.contains (basenameSeg fp) = false)
    (h2 : gitComponentIgnored isDir fp = false)
    (hd : d ∈ relevantDirs fp root idx)
    (hp : pattern ∈ lookupIdx idx d)
    (hn : isNeg pattern = true)
    (hm : patternMatched (relChars fp d) pattern = true) :
    is_file_ignored isDir fp root idx = false := by
  have h1' : basenameSeg fp ∉ ALWAYS_IGNORE_FILENAMES := by simpa using h1
  have hsnd :=
    foldl_dirStep_neg fp idx (relevantDirs fp root idx) (false, false) d pattern hd hp hn hm
  simp [is_file_ignored, h1', h2, hsnd]

/-- C10 witness: the matching negation `!a.txt` forces `false` although
the matching plain rules `a.txt` and `*.txt` surround it. -/
theorem C10_witness :
    is_file_ignored (fun _ => false) ["r", "a.txt"] ["r"]
      [(["r"], ["a.txt", "!a.txt", "*.txt"])] = false :=
  C10_sticky_negation (fun _ => false) ["r", "a.txt"] ["r"]
    [(["r"], ["a.txt", "!a.txt", "*.txt"])] ["r"] "!a.txt"
    (by decide) (by decide) (by decide) (by decide) (by decide) (by decide)

theorem mem_of_getLast_some :
    ∀ (l : List Char) (c : Char), l.getLast? = some c → c ∈ l := by
  intro l
  induction l with
  | nil => intro c h; simp at h
  | cons a as ih =>
    intro c h
    cases as with
    | nil =>
      simp at h
      simp [h]
    | cons b bs =>
      have h2 : (b :: bs).getLast? = some c := by
        simpa [List.getLast?_cons_cons] using h
      exact List.mem_cons_of_mem a (ih c h2)

/-- C7: the directory-only rule `foo/` at the root ignores
`root/foo/bar.txt` and the directory `root/foo` itself but not
`root/barfoo/x`; in general a pattern ending in `/` matches exactly when
the relative path with a trailing `/` appended starts with the pattern. -/
theorem C7_directory_only :
    is_file_ignored (fun _ => false) ["r", "foo", "bar.txt"] ["r"]
      [(["r"], ["foo/"])] = true ∧
    is_file_ignored (fun _ => false) ["r", "foo"] ["r"]
      [(["r"], ["foo/"])] = true ∧
    is_file_ignored (fun _ => false) ["r", "barfoo", "x"] ["r"]
      [(["r"], ["foo/"])] = false ∧
    ∀ (pat rel : List Char), pat.getLast? = some '/' →
      ruleMatches rel pat = beqPrefix pat (rel ++ ['/']) := by
  refine ⟨by decide, by decide, by decide, ?_⟩
  intro pat rel h
  simp [ruleMatches, h]

/-- C7 witness: instantiating the general characterization at the rule
`foo/` and the relative path `foo/x`. -/
theorem C7_witness :
    ruleMatches ("foo/x".data) ("foo/".data) =
      beqPrefix ("foo/".data) ("foo/x".data ++ ['/']) :=
  C7_directory_only.2.2.2 "foo/".data "foo/x".data (by decide)

/-- C8: the unanchored rule `*.log` in directory `D = root/d` ignores
`D/app.log` and `D/sub/app.log`; in general a separator-free pattern
whose glob matches the path's final segment matches the path. -/
theorem C8_unanchored :
    is_file_ignored (fun _ => false) ["r", "d", "app.log"] ["r"]
      [(["r", "d"], ["*.log"])] = true ∧
    is_file_ignored (fun _ => false) ["r", "d", "sub", "app.log"] ["r"]
      [(["r", "d"], ["*.log"])] = true ∧
    ∀ (pat rel : List Char), pat.contains '/' = false →
      fnmatch (lastSlashSeg rel) pat = true → ruleMatches rel pat = true := by
  refine ⟨by decide, by decide, ?_⟩
  intro pat rel hsep hbase
  have hmem : '/' ∉ pat := by simpa using hsep
  have hlast : (pat.getLast? == some '/') = false := by
    cases h' : (pat.getLast? == some '/') with
    | false => rfl
    | true => exact absurd (mem_of_getLast_some pat '/' (eq_of_beq h')) hmem
  simp [ruleMatches, hlast, hmem, hbase]

/-- C8 witness: the rule `*.log` matches the relative path `x/app.log`
through its basename. -/
theorem C8_witness : ruleMatches ("x/app.log".data) ("*.log".data) = true :=
  C8_unanchored.2.2 "*.log".data "x/app.log".data (by decide) (by decide)

theorem chainDirs_st_eq :
    ∀ (fuel : Nat) (temp root : AbsPath) (idx : Idx),
      chainDirs_st fuel temp root idx = (chainDirs fuel temp root idx, idx) := by
  intro fuel
  induction fuel with
  | zero => intro temp root idx; rfl
  | succ n ih =>
    intro temp root idx
    simp only [chainDirs_st, chainDirs, dictContains_st, ih]
    split <;> rfl

theorem foldl_queryStep_eq (fp : AbsPath) :
    ∀ (dirs : List AbsPath) (st : Bool × Bool) (idx : Idx),
      dirs.foldl (queryStep_st fp) (st, idx) = (dirs.foldl (dirStep fp idx) st, idx) := by
  intro dirs
  induction dirs with
  | nil => intro st idx; rfl
  | cons d ds ih =>
    intro st idx
    rw [List.foldl_cons, List.foldl_cons,
      show queryStep_st fp (st, idx) d = (dirStep fp idx st d, idx) from rfl, ih]

theorem is_file_ignored_st_spec (isDir : AbsPath → Bool) (fp root : AbsPath) (idx : Idx) :
    is_file_ignored_st isDir fp root idx = (is_file_ignored isDir fp root idx, idx) := by
  cases h1 : ALWAYS_IGNORE_FILENAMES.contains (basenameSeg fp) with
  | true =>
    have h1' : basenameSeg fp ∈ ALWAYS_IGNORE_FILENAMES := by simpa using h1
    simp [is_file_ignored_st, is_file_ignored, h1']
  | false =>
    have h1' : basenameSeg fp ∉ ALWAYS_IGNORE_FILENAMES := by simpa using h1
    cases h2 : gitComponentIgnored isDir fp with
    | true => simp [is_file_ignored_st, is_file_ignored, h1', h2]
    | false =>
      simp [is_file_ignored_st, is_file_ignored, h1', h2, relevantDirs,
        chainDirs_st_eq, foldl_queryStep_eq]

/-- C9: queries are pure — the state-passing resolver hands back the
index it was given, unchanged (so the directory-to-patterns mapping and
every pattern list are untouched), and a second call on the returned
index yields the same verdict as the first. -/
theorem C9_query_pure (isDir : AbsPath → Bool) (fp root : AbsPath) (idx : Idx) :
    (is_file_ignored_st isDir fp root idx).2 = idx ∧
    (is_file_ignored_st isDir fp root ((is_file_ignored_st isDir fp root idx).2)).1 =
      (is_file_ignored_st isDir fp root idx).1 := by
  simp [is_file_ignored_st_spec]

theorem beqPrefix_refl [BEq α] [LawfulBEq α] : ∀ (l : List α), beqPrefix l l = true := by
  intro l
  induction l with
  | nil => rfl
  | cons a as ih => simp [beqPrefix, ih]

theorem beqPrefix_trans [BEq α] [LawfulBEq α] :
    ∀ (a b c : List α), beqPrefix a b = true → beqPrefix b c = true →
      beqPrefix a c = true := by
  intro a
  induction a with
  | nil => intro b c _ _; rfl
  | cons x xs ih =>
    intro b c hab hbc
    cases b with
    | nil => simp [beqPrefix] at hab
    | cons y ys =>
      cases c with
      | nil => simp [beqPrefix] at hbc
      | cons z zs =>
        simp [beqPrefix] at hab hbc ⊢
        exact ⟨hab.1.trans hbc.1, ih ys zs hab.2 hbc.2⟩

theorem scanStep_keys (fs : FS) (acc : Idx × List AbsPath) (r : AbsPath)
    (acc' : Idx × List AbsPath) (h : scanStep fs acc r = Except.ok acc') :
    ∀ k ∈ acc'.1.map Prod.fst, k ∈ acc.1.map Prod.fst ∨ k = r := by
  simp only [scanStep] at h
  split at h
  · split at h
    · simp only [Except.ok.injEq] at h
      subst h
      intro k hk
      simp only [List.map_append, List.mem_append] at hk
      rcases hk with hk | hk
      · exact Or.inl hk
      · simp at hk
        exact Or.inr hk
    · exact absurd h (by simp)
  · simp only [Except.ok.injEq] at h
    subst h
    intro k hk
    exact Or.inl hk

theorem scanList_keys (fs : FS) :
    ∀ (l : List AbsPath) (acc acc' : Idx × List AbsPath),
      scanList fs l acc = Except.ok acc' →
      ∀ k ∈ acc'.1.map Prod.fst, k ∈ acc.1.map Prod.fst ∨ k ∈ l := by
  intro l
  induction l with
  | nil =>
    intro acc acc' h k hk
    simp only [scanList, Except.ok.injEq] at h
    subst h
    exact Or.inl hk
  | cons r rs ih =>
    intro acc acc' h k hk
    unfold scanList at h
    split at h
    · rename_i acc2 hstep
      rcases ih acc2 acc' h k hk with h2 | h2
      · rcases scanStep_keys fs acc r acc2 hstep k h2 with h3 | h3
        · exact Or.inl h3
        · exact Or.inr (by simp [h3])
      · exact Or.inr (List.mem_cons_of_mem r h2)
    · exact absurd h (by simp)

theorem scanDirs_keys (fs : FS) :
    ∀ (ds : List AbsPath) (acc acc' : Idx × List AbsPath),
      scanDirs fs ds acc = Except.ok acc' →
      ∀ k ∈ acc'.1.map Prod.fst,
        k ∈ acc.1.map Prod.fst ∨ ∃ d ∈ ds, k ∈ osWalkDirs fs d := by
  intro ds
  induction ds with
  | nil =>
    intro acc acc' h k hk
    simp only [scanDirs, Except.ok.injEq] at h
    subst h
    exact Or.inl hk
  | cons d ds ih =>
    intro acc acc' h k hk
    unfold scanDirs at h
    split at h
    · rename_i acc2 hlist
      rcases ih acc2 acc' h k hk with h2 | h2
      · rcases scanList_keys fs (osWalkDirs fs d) acc acc2 hlist k h2 with h3 | h3
        · exact Or.inl h3
        · exact Or.inr ⟨d, List.mem_cons_self d ds, h3⟩
      · rcases h2 with ⟨e, he, hwalk⟩
        exact Or.inr ⟨e, List.mem_cons_of_mem d he, hwalk⟩
    · exact absurd h (by simp)

/-- C5 counterexample: with project root `/r` and the start path `/out`
outside it, the builder returns an index keyed by `/out`, which is not at
or under the project root — the source's out-of-root guard is a `pass`
and bounds nothing. -/
theorem C5_counterexample :
    collect_gitignore_patterns fsOut [["out"]] ["r"] = Except.ok [(["out"], ["x"])] ∧
    beqPrefix ["r"] (["out"] : AbsPath) = false :=
  ⟨rfl, rfl⟩

/-- C5 amended: the builder bounds nothing by itself — but whenever every
scanned containing directory lies at or under the project root, every
directory key of the returned index is at or under the project root. -/
theorem C5_keys_bounded (fs : FS) (starts : List AbsPath) (root : AbsPath) (dict : Idx)
    (hscan : ∀ d ∈ dirs_to_scan fs starts, beqPrefix root d = true)
    (hok : collect_gitignore_patterns fs starts root = Except.ok dict) :
    ∀ k ∈ dict.map Prod.fst, beqPrefix root k = true := by
  intro k hk
  simp only [collect_gitignore_patterns] at hok
  split at hok
  · exact absurd hok (by simp)
  · rename_i init hinit
    split at hok
    · rename_i fin hfin
      simp only [Except.ok.injEq] at hok
      subst hok
      have hkeys := scanDirs_keys fs (dirs_to_scan fs starts) init fin hfin k hk
      have hinitkeys : ∀ k' ∈ init.1.map Prod.fst, k' = root := by
        split at hinit
        · split at hinit
          · simp only [Except.ok.injEq] at hinit
            subst hinit
            intro k' hk'
            simpa using hk'
          · exact absurd hinit (by simp)
        · simp only [Except.ok.injEq] at hinit
          subst hinit
          intro k' hk'
          simp at hk'
      rcases hkeys with h | ⟨d, hd, hwalk⟩
      · rw [hinitkeys k h]
        exact beqPrefix_refl root
      · have hdk : beqPrefix d k = true := (List.mem_filter.mp hwalk).2
        exact beqPrefix_trans root d k (hscan d hd) hdk
    · exact absurd hok (by simp)

/-- C5 witness: with the start path `/r/s` under the project root `/r`,
the key `/r/s` of the returned index is under the root. -/
theorem C5_witness : beqPrefix ["r"] (["r", "s"] : AbsPath) = true :=
  C5_keys_bounded fsW [["r", "s"]] ["r"] [(["r"], ["x"]), (["r", "s"], ["x"])]
    (by decide) (by rfl) ["r", "s"] (by decide)

/-- C6 counterexample: a rule file that exists but is unreadable does not
yield an empty rule list — the Loader's read failure escapes as an error
(the source has no handler around `open`), refuting "treated as empty,
run continues, nothing raises". -/
theorem C6_counterexample :
    load_gitignore_patterns fsU ["r", ".gitignore"] = Except.error () :=
  rfl

/-- C6 amended: a missing rule file yields an empty rule list, but an
existing unreadable rule file makes the Loader fail, and that failure
propagates out of index construction, aborting the run. -/
theorem C6_unreadable_raises (fs : FS) (p : AbsPath) (starts : List AbsPath)
    (root : AbsPath) :
    (fs.files.contains p = false → load_gitignore_patterns fs p = Except.ok []) ∧
    (fs.files.contains p = true → fs.readable p = false →
      load_gitignore_patterns fs p = Except.error ()) ∧
    (fs.files.contains (root ++ [".gitignore"]) = true →
      fs.readable (root ++ [".gitignore"]) = false →
      collect_gitignore_patterns fs starts root = Except.error ()) := by
  refine ⟨?_, ?_, ?_⟩
  · intro h
    have h' : p ∉ fs.files := by simpa using h
    simp [load_gitignore_patterns, h']
  · intro h1 h2
    have h1' : p ∈ fs.files := by simpa using h1
    simp [load_gitignore_patterns, h1', h2]
  · intro h1 h2
    have h1' : root ++ [".gitignore"] ∈ fs.files := by simpa using h1
    simp [collect_gitignore_patterns, load_gitignore_patterns, h1', h2]

/-- C6 witness: on the empty filesystem a missing rule file loads as the
empty list, and on `fsU` the unreadable root rule file aborts index
construction. -/
theorem C6_witness :
    load_gitignore_patterns fsM ["x"] = Except.ok [] ∧
    collect_gitignore_patterns fsU [] ["r"] = Except.error () :=
  ⟨(C6_unreadable_raises fsM ["x"] [] []).1 rfl,
   (C6_unreadable_raises fsU ["r", ".gitignore"] [] ["r"]).2.2 rfl rfl⟩
